import Mathlib

/-!
Verification of the core cord data structures of this abseil fork:
the flat size-class codec (cord_rep_flat.h), the refcount controller and
node substring logic (cord_internal.h), the inline small-value encoding
(cord_internal.h), and the cordz deferred-deletion queue (cordz_handle.cc).
All definitions are shallow embeddings of the corresponding C++ code.
-/

namespace AbslCord

/-! ### Size-class codec, from cord_rep_flat.h -/

/-- CordRepKind SUBSTRING, from cord_internal.h. -/
def SUBSTRING : Nat := 1

/-- CordRepKind EXTERNAL, from cord_internal.h. -/
def EXTERNAL : Nat := 5

/-- CordRepKind FLAT: first flat tag, from cord_internal.h. -/
def FLAT : Nat := 6

/-- Largest flat tag, from cord_internal.h. -/
def MAX_FLAT_TAG : Nat := 248

/-- kTagBase = FLAT - 4, from cord_rep_flat.h. -/
def kTagBase : Nat := FLAT - 4

/-- AllocatedSizeToTagUnchecked, from cord_rep_flat.h. The C++ value is cast
to uint8_t, hence the final reduction modulo 256. All arithmetic is on
size_t values that stay small and non-negative, so Nat arithmetic with
truncated subtraction agrees with the source. -/
def AllocatedSizeToTagUnchecked (size : Nat) : Nat :=
  (if size ≤ 512 then kTagBase + size / 8
   else if size ≤ 8192 then kTagBase + 512 / 8 + size / 64 - 512 / 64
   else kTagBase + 512 / 8 + ((8192 - 512) / 64) + size / 4096 - 8192 / 4096) % 256

/-- TagToAllocatedSize, from cord_rep_flat.h. -/
def TagToAllocatedSize (tag : Nat) : Nat :=
  if tag ≤ kTagBase + 512 / 8 then tag * 8 - kTagBase * 8
  else if tag ≤ kTagBase + (512 / 8) + ((8192 - 512) / 64) then
    512 + tag * 64 - kTagBase * 64 - 512 / 8 * 64
  else
    8192 + tag * 4096 - kTagBase * 4096 - ((512 / 8) + ((8192 - 512) / 64)) * 4096

/-- RoundUp, from cord_rep_flat.h: (n + m - 1) & (0 - m) on size_t values,
with 0 - m wrapping to 2 ^ 64 - m. -/
def RoundUp (n m : Nat) : Nat :=
  ((n + m - 1) % 2 ^ 64) &&& ((2 ^ 64 - m) % 2 ^ 64)

/-- RoundUpForTag, from cord_rep_flat.h. -/
def RoundUpForTag (size : Nat) : Nat :=
  RoundUp size (if size ≤ 512 then 8 else if size ≤ 8192 then 64 else 4096)

/-- AllocatedSizeToTag, from cord_rep_flat.h: same value as the unchecked
conversion; the source merely adds an assert that the tag is in range. -/
def AllocatedSizeToTag (size : Nat) : Nat := AllocatedSizeToTagUnchecked size

/-! ### Refcount controller, from cord_internal.h (RefcountAndFlags)

The controller state is the packed int32 value count_: bit 0 is the
immortal flag, upper bits hold the live count. Atomic fetch_add and
fetch_sub on int32 wrap modulo 2 ^ 32, hence wrap32 below. -/

/-- RefcountAndFlags::kImmortalFlag. -/
def kImmortalFlag : Int := 1

/-- RefcountAndFlags::kRefIncrement, the count unit (live count is shifted
left by one flag bit). -/
def kRefIncrement : Int := 2

/-- Two's-complement wrap of an integer into the int32 range, the behavior
of atomic fetch_add and fetch_sub on an int32. -/
def wrap32 (x : Int) : Int := (x + 2 ^ 31) % 2 ^ 32 - 2 ^ 31

/-- RefcountAndFlags() default constructor: count_ = kRefIncrement. -/
def RefcountInit : Int := kRefIncrement

/-- RefcountAndFlags(Immortal) constructor: count_ = kImmortalFlag. -/
def RefcountImmortalInit : Int := kImmortalFlag

/-- RefcountAndFlags::Get(): count_ shifted right by kNumFlags = 1. The
int32 shift is arithmetic, i.e. floor division by 2. -/
def RefGet (c : Int) : Int := Int.fdiv c 2

/-- RefcountAndFlags::IsImmortal(): tests flag bit 0 of count_, i.e. the
parity of the packed value. -/
def RefIsImmortal (c : Int) : Bool := c % 2 = 1

/-- RefcountAndFlags::IsOne(): count_ == kRefIncrement. -/
def RefIsOne (c : Int) : Bool := c = kRefIncrement

/-- RefcountAndFlags::Increment(): fetch_add of kRefIncrement. -/
def RefIncrementOp (c : Int) : Int := wrap32 (c + kRefIncrement)

/-- RefcountAndFlags::Decrement(): returns
refcount != kRefIncrement && fetch_sub(kRefIncrement) != kRefIncrement.
When the loaded count equals kRefIncrement the conjunction short-circuits,
so no subtraction happens; otherwise (single-threaded) the value returned
by fetch_sub is that same loaded count, so the result is true and the
stored count drops by kRefIncrement. Returns (result, new count_). -/
def RefDecrement (c : Int) : Bool × Int :=
  if c = kRefIncrement then (false, c) else (true, wrap32 (c - kRefIncrement))

/-- RefcountAndFlags::DecrementExpectHighRefcount(): unconditional
fetch_sub of kRefIncrement; returns whether the prior count differed from
kRefIncrement, paired with the new count_. -/
def RefDecrementExpectHighRefcount (c : Int) : Bool × Int :=
  (c ≠ kRefIncrement, wrap32 (c - kRefIncrement))

/-- The count_ value after k successive Decrement() calls starting from c. -/
def RefDecrementIter (c : Int) : Nat → Int
  | 0 => c
  | k + 1 => (RefDecrement (RefDecrementIter c k)).snd

/-! ### Node heap and CordRepSubstring::Substring, from cord_internal.h

Nodes live in an addressed heap so that pointer identity, reference
counts and allocation are explicit. A single record covers all variants;
start and child are meaningful only when tag = SUBSTRING. -/

/-- A cord node: length, packed refcount, tag, and the substring fields. -/
structure CordRep where
  length : Nat
  refcount : Int
  tag : Nat
  start : Nat
  child : Nat
deriving DecidableEq, Repr

/-- CordRep::IsSubstring(). -/
def CordRep.IsSubstring (r : CordRep) : Bool := r.tag = SUBSTRING

/-- CordRep::IsExternal(). -/
def CordRep.IsExternal (r : CordRep) : Bool := r.tag = EXTERNAL

/-- CordRep::IsFlat(): tag >= FLAT. -/
def CordRep.IsFlat (r : CordRep) : Bool := FLAT ≤ r.tag

/-- A heap of cord nodes: a partial map from addresses plus the next
fresh address. -/
structure CordHeap where
  mem : Nat → Option CordRep
  next : Nat

/-- Overwrite the node stored at address p. -/
def CordHeap.update (h : CordHeap) (p : Nat) (r : CordRep) : CordHeap :=
  ⟨fun q => if q = p then some r else h.mem q, h.next⟩

/-- Allocate a new node at a fresh address (operator new). -/
def CordHeap.alloc (h : CordHeap) (r : CordRep) : CordHeap × Nat :=
  (⟨fun q => if q = h.next then some r else h.mem q, h.next + 1⟩, h.next)

/-- CordRep::Ref(rep): increment the refcount of the node at p. -/
def CordRepRef (h : CordHeap) (p : Nat) : CordHeap :=
  match h.mem p with
  | some r => h.update p { r with refcount := RefIncrementOp r.refcount }
  | none => h

/-- CordRepSubstring::Substring(rep, pos, n), from cord_internal.h.
A missing node or a failed assert (n != 0, pos < length,
n <= length - pos) is the fatal path, returned as none. Otherwise:
a full-range request returns Ref(rep) itself; a substring argument is
rebased onto its child; a fresh SUBSTRING node is allocated whose child
field takes an added reference. The new node default-constructs its
refcount to RefcountInit. Returns (new heap, result address). -/
def CordRepSubstringSubstring (h : CordHeap) (rep : Nat) (pos n : Nat) :
    Option (CordHeap × Nat) :=
  match h.mem rep with
  | none => none
  | some node =>
    if n = 0 ∨ ¬ pos < node.length ∨ ¬ n ≤ node.length - pos then none
    else if n = node.length then some (CordRepRef h rep, rep)
    else
      let pos2 := if node.IsSubstring then pos + node.start else pos
      let rep2 := if node.IsSubstring then node.child else rep
      let h1 := CordRepRef h rep2
      some (h1.alloc { length := n, refcount := RefcountInit, tag := SUBSTRING,
                       start := pos2, child := rep2 })

/-! ### Inline small-value encoding, from cord_internal.h (InlineData)

The 16-byte union is modelled as a sum: either the 16 raw bytes of the
inline form, or the tree form holding the cordz_info word and the tree
address. The control byte (tag) of the tree form is the low byte of the
little-endian cordz_info word, exactly the overlay the source relies on. -/

/-- kMaxInline, from cord_internal.h. -/
def kMaxInline : Nat := 15

/-- InlineData::kNullCordzInfo = LittleEndianByte(1), whose value on a
little-endian host is 1. -/
def kNullCordzInfo : Nat := 1

/-- The InlineData::Rep union: 16 raw bytes, or the AsTree view. -/
inductive InlineRep where
  | bytes (data : Fin 16 → Nat)
  | tree (cordz_info : Nat) (rep : Nat)

/-- Rep::tag(): the byte at offset 0. In tree form this is the low byte
of the little-endian cordz_info word. -/
def InlineRep.tag : InlineRep → Nat
  | .bytes d => d 0
  | .tree ci _ => ci % 256

/-- Rep::as_chars(): the bytes starting at offset 1. The byte overlay of
the tree form is target-dependent and modelled as 0; set_inline_data
overwrites all kMaxInline bytes, so this value is never observable in
the inline form. -/
def InlineRep.chars : InlineRep → Nat → Nat
  | .bytes d, i => if h : i + 1 < 16 then d ⟨i + 1, h⟩ else 0
  | .tree _ _, _ => 0

/-- Rep::cordz_info() (as_tree.cordz_info); reading it on the inline form
is guarded by an assert in the source and modelled as 0. -/
def InlineRep.cordzInfoVal : InlineRep → Nat
  | .tree ci _ => ci
  | .bytes _ => 0

/-- InlineData::is_tree(): (tag & 1) != 0. -/
def InlineData_is_tree (r : InlineRep) : Bool := r.tag &&& 1 ≠ 0

/-- InlineData::inline_size(): tag shifted right one bit. -/
def InlineData_inline_size (r : InlineRep) : Nat := r.tag >>> 1

/-- InlineData::as_tree(): the stored node address (asserted tree form). -/
def InlineData_as_tree : InlineRep → Nat
  | .tree _ p => p
  | .bytes _ => 0

/-- InlineData::as_chars(). -/
def InlineData_as_chars (r : InlineRep) (i : Nat) : Nat := r.chars i

/-- InlineData(CordRep* rep): the Rep(CordRep*) constructor stores the
address in as_tree.rep and leaves cordz_info at its kNullCordzInfo
member initializer. -/
def InlineData_ofTree (p : Nat) : InlineRep := .tree kNullCordzInfo p

/-- memcpy of len bytes from src into dst at offset off. -/
def memWrite (dst : Nat → Nat) (off : Nat) (src : Nat → Nat) (len : Nat) :
    Nat → Nat :=
  fun i => if off ≤ i ∧ i < off + len then src (i - off) else dst i

/-- memset of len zero bytes into dst at offset off. -/
def memZero (dst : Nat → Nat) (off len : Nat) : Nat → Nat :=
  fun i => if off ≤ i ∧ i < off + len then 0 else dst i

/-- SmallMemmove with nullify_tail = true, from cord_internal.h, for
distinct src and dst regions: three branches on n, each first zeroing the
tail region and then writing the source bytes through 8-byte, 4-byte or
single-byte copies, the later stores winning on overlap (the outermost
memWrite below is the store executed last). -/
def SmallMemmoveNullify (dst src : Nat → Nat) (n : Nat) : Nat → Nat :=
  if 8 ≤ n then
    memWrite (memWrite (memZero dst 7 8) 0 src 8) (n - 8) (fun i => src (n - 8 + i)) 8
  else if 4 ≤ n then
    memWrite (memWrite (memZero (memZero dst 4 4) 7 8) 0 src 4)
      (n - 4) (fun i => src (n - 4 + i)) 4
  else
    let d1 : Nat → Nat :=
      if n ≠ 0 then
        fun i =>
          if i = 0 then src 0
          else if i = n / 2 then src (n / 2)
          else if i = n - 1 then src (n - 1)
          else dst i
      else dst
    memZero (memZero d1 7 8) n 8

/-- InlineData::set_inline_data(data, n): set_tag((int8_t)(n << 1)) then
SmallMemmove with nullify_tail into as_chars(). -/
def InlineData_set_inline_data (r : InlineRep) (src : Nat → Nat) (n : Nat) :
    InlineRep :=
  .bytes (fun i => if (i : Nat) = 0 then (n <<< 1) % 256
                   else SmallMemmoveNullify r.chars src n ((i : Nat) - 1))

/-- InlineData::is_profiled(): cordz_info differs from kNullCordzInfo
(asserted tree form). -/
def InlineData_is_profiled (r : InlineRep) : Bool :=
  r.cordzInfoVal ≠ kNullCordzInfo

/-- InlineData::is_either_profiled(data1, data2): the bitwise OR of the
two cordz_info words differs from kNullCordzInfo. -/
def InlineData_is_either_profiled (d1 d2 : InlineRep) : Bool :=
  (d1.cordzInfoVal ||| d2.cordzInfoVal) ≠ kNullCordzInfo

/-- InlineData::make_tree(rep): stores the address and resets cordz_info
to kNullCordzInfo. -/
def InlineData_make_tree (p : Nat) : InlineRep := .tree kNullCordzInfo p

/-- InlineData::set_cordz_info(p): stores the little-endian form of
(p | 1); the uintptr_t value is truncated to the 64-bit word. Asserted
tree form; the inline form is left unchanged here. -/
def InlineData_set_cordz_info (r : InlineRep) (ptr : Nat) : InlineRep :=
  match r with
  | .tree _ p => .tree ((ptr ||| 1) % 2 ^ 64) p
  | .bytes d => .bytes d

/-- InlineData::clear_cordz_info(): resets cordz_info to kNullCordzInfo. -/
def InlineData_clear_cordz_info (r : InlineRep) : InlineRep :=
  match r with
  | .tree _ p => .tree kNullCordzInfo p
  | .bytes d => .bytes d

/-- The cordz_info words producible by make_tree, clear_cordz_info and
set_cordz_info: the null word, or a pointer with the low tag bit set. -/
def ValidCordzInfo (c : Nat) : Prop :=
  c = kNullCordzInfo ∨ ∃ p : Nat, c = (p ||| 1) % 2 ^ 64

/-- A concrete flat node used by the witness statements: 20 payload bytes,
a fresh refcount, a flat tag. -/
def flatDemoNode : CordRep := ⟨20, 2, 6, 0, 0⟩

/-- A concrete substring node over flatDemoNode at address 0: the view
Range(flat, 5, 10). -/
def substrDemoNode : CordRep := ⟨10, 2, 1, 5, 0⟩

/-- A concrete heap holding flatDemoNode at 0 and substrDemoNode at 1. -/
def demoHeap : CordHeap :=
  ⟨fun q => if q = 0 then some flatDemoNode
            else if q = 1 then some substrDemoNode else none, 2⟩

/-- A concrete heap holding only flatDemoNode at address 0. -/
def fullDemoHeap : CordHeap :=
  ⟨fun q => if q = 0 then some flatDemoNode else none, 1⟩

/-! ### Deferred-deletion queue, from cordz_handle.cc

The global doubly-linked delete queue is modelled as a list in insertion
order: the head of the list is the queue head (oldest element, null
dq_prev_) and the last element is dq_tail. Each operation below is the
body of the corresponding member of CordzHandle, with the mutex elided
(the mutex serializes the operations; the model is that serial order). -/

/-- A handle: an identity and the immutable is_snapshot flag. -/
structure CordzHandle where
  id : Nat
  is_snapshot : Bool
deriving DecidableEq, Repr

/-- CordzHandle::SafeToDelete(): is_snapshot_ || queue empty. -/
def SafeToDelete (h : CordzHandle) (q : List CordzHandle) : Bool :=
  h.is_snapshot || q.isEmpty

/-- CordzHandle::CordzHandle(is_snapshot): a snapshot links itself in at
the tail; a non-snapshot never joins the queue at construction. -/
def CordzHandleConstruct (h : CordzHandle) (q : List CordzHandle) :
    List CordzHandle :=
  if h.is_snapshot then q ++ [h] else q

/-- CordzHandle::~CordzHandle(): a non-snapshot destructor does not touch
the queue. A snapshot unlinks itself; if it was the queue head it also
deletes every consecutive non-snapshot that follows it, stopping at the
first snapshot or the end. Returns (new queue, additionally destroyed
handles, in deletion order). -/
def CordzHandleDestruct (h : CordzHandle) (q : List CordzHandle) :
    List CordzHandle × List CordzHandle :=
  if h.is_snapshot then
    match q with
    | [] => ([], [])
    | x :: rest =>
      if x = h then
        (rest.dropWhile (fun p => !p.is_snapshot),
         rest.takeWhile (fun p => !p.is_snapshot))
      else (q.erase h, [])
  else (q, [])

/-- CordzHandle::Delete(handle): a null handle fails the assert (fatal).
If the handle is not safe to delete and the tail exists, it is appended
to the queue; otherwise it is destroyed immediately (running its
destructor, which for a snapshot unlinks it and may cascade). Returns
(new queue, destroyed handles). -/
def CordzHandleDelete (handle : Option CordzHandle) (q : List CordzHandle) :
    Except Unit (List CordzHandle × List CordzHandle) :=
  match handle with
  | none => .error ()
  | some h =>
    if ¬ SafeToDelete h q then
      match q with
      | [] =>
        let r := CordzHandleDestruct h q
        .ok (r.fst, h :: r.snd)
      | _ => .ok (q ++ [h], [])
    else
      let r := CordzHandleDestruct h q
      .ok (r.fst, h :: r.snd)

/-- CordzHandle::DiagnosticsGetDeleteQueue(): the queue contents starting
from dq_tail, following dq_prev_, i.e. tail-first order. -/
def DiagnosticsGetDeleteQueue (q : List CordzHandle) : List CordzHandle :=
  q.reverse

/-- The loop of DiagnosticsHandleIsSafeToInspect: walk the given
(tail-first) order; on meeting handle return whether no snapshot equal to
self was passed; passing self sets the flag; an exhausted walk returns
true (the source asserts self was found). -/
def inspectWalk (handle self : CordzHandle) :
    List CordzHandle → Bool → Bool
  | [], _ => true
  | p :: ps, found =>
    if p = handle then !found else inspectWalk handle self ps (found || p = self)

/-- CordzHandle::DiagnosticsHandleIsSafeToInspect(handle): false unless
this is a snapshot; a null handle is safe; a snapshot handle is not; else
walk from the tail toward the head. -/
def DiagnosticsHandleIsSafeToInspect (self : CordzHandle)
    (handle : Option CordzHandle) (q : List CordzHandle) : Bool :=
  if !self.is_snapshot then false
  else
    match handle with
    | none => true
    | some h =>
      if h.is_snapshot then false
      else inspectWalk h self (DiagnosticsGetDeleteQueue q) false

/-- The elements after the first occurrence of h, i.e. the dq_next_ chain
of h in the queue. -/
def suffixAfter (h : CordzHandle) : List CordzHandle → List CordzHandle
  | [] => []
  | p :: ps => if p = h then ps else suffixAfter h ps

/-- CordzHandle::DiagnosticsGetSafeToInspectDeletedHandles(): empty unless
this is a snapshot; otherwise every non-snapshot handle reached from
dq_next_ onward (toward the tail). -/
def DiagnosticsGetSafeToInspectDeletedHandles (self : CordzHandle)
    (q : List CordzHandle) : List CordzHandle :=
  if !self.is_snapshot then []
  else (suffixAfter self q).filter (fun p => !p.is_snapshot)

/-- Modelled from the spec: the spec describes
GetSafeToInspectDeletedHandles as returning every non-snapshot handle
between this snapshot and the next snapshot (exclusive) walking away from
the tail, i.e. the walk stops at the first snapshot encountered. Stated
here only to compare against the embedding of the source. -/
def specGetSafeToInspectDeletedHandles (self : CordzHandle)
    (q : List CordzHandle) : List CordzHandle :=
  if !self.is_snapshot then []
  else (suffixAfter self q).takeWhile (fun p => !p.is_snapshot)

/-! ## Theorems -/

/-- Get() equals Euclidean division by 2 (the packed count is only ever
compared against non-negative bounds below). -/
theorem RefGet_eq (c : Int) : RefGet c = c / 2 := Int.fdiv_eq_ediv c (by norm_num)

/-- A counter constructed immortal keeps an odd packed count through any
number of Decrement() calls: the initial value kImmortalFlag is odd and
both branches of Decrement preserve parity (they subtract the even
values kRefIncrement and multiples of 2 ^ 32). -/
theorem refDecrementIter_immortal_odd (k : Nat) :
    (RefDecrementIter RefcountImmortalInit k) % 2 = 1 := by
  induction k with
  | zero => decide
  | succ k ih =>
    unfold RefDecrementIter RefDecrement
    split
    · simpa using ih
    · simp only [wrap32, kRefIncrement]
      omega

/-- wrap32 is the identity on values already inside the int32 range. -/
theorem wrap32_id {x : Int} (h1 : -(2 ^ 31) ≤ x) (h2 : x < 2 ^ 31) :
    wrap32 x = x := by unfold wrap32; omega

/-- CordRep::Ref never changes the next fresh address. -/
theorem CordRepRef_next (h : CordHeap) (p : Nat) :
    (CordRepRef h p).next = h.next := by
  unfold CordRepRef
  cases h.mem p <;> rfl

/-- CordRep::Ref on a present node rewrites that node with an incremented
refcount. -/
theorem CordRepRef_eq (h : CordHeap) (p : Nat) (node : CordRep)
    (hm : h.mem p = some node) :
    CordRepRef h p =
      h.update p { node with refcount := RefIncrementOp node.refcount } := by
  simp only [CordRepRef, hm]

/-- Net effect of SmallMemmove with nullify_tail on the 15 payload bytes:
the first n bytes come from src, the rest are zero. -/
theorem smallMemmoveNullify_spec (dst src : Nat → Nat) (n : Nat) (hn : n ≤ 15) :
    ∀ i, i < 15 → SmallMemmoveNullify dst src n i = if i < n then src i else 0 := by
  intro i hi
  unfold SmallMemmoveNullify memWrite memZero
  by_cases h8 : 8 ≤ n
  · rw [if_pos h8]
    beta_reduce
    split_ifs <;> first | rfl | (exfalso; omega) | (congr 1; omega)
  · rw [if_neg h8]
    by_cases h4 : 4 ≤ n
    · rw [if_pos h4]
      beta_reduce
      split_ifs <;> first | rfl | (exfalso; omega) | (congr 1; omega)
    · rw [if_neg h4]
      by_cases h0 : n = 0
      · subst h0
        rw [if_neg (show ¬ (0 : Nat) ≠ 0 by simp)]
        split_ifs <;> first | rfl | (exfalso; omega)
      · rw [if_pos h0]
        beta_reduce
        split_ifs <;> first | rfl | (exfalso; omega) | (congr 1; omega)

/-- Bits of 1 above position 0 are clear. -/
theorem one_testBit_succ (j : Nat) : (1 : Nat).testBit (j + 1) = false := by
  rw [Nat.testBit_succ]
  exact Nat.zero_testBit j

/-- For odd operands, a bitwise OR equal to 1 forces both operands to
be 1. -/
theorem lor_eq_one_iff (a b : Nat) (ha : a % 2 = 1) (hb : b % 2 = 1) :
    a ||| b = 1 ↔ a = 1 ∧ b = 1 := by
  constructor
  · intro h
    have hbit : ∀ i, (a ||| b).testBit i = (1 : Nat).testBit i := fun i => by rw [h]
    have ha1 : a = 1 := by
      apply Nat.eq_of_testBit_eq
      intro i
      cases i with
      | zero => rw [Nat.testBit_zero, Nat.testBit_zero]; simp [ha]
      | succ j =>
        have hj := hbit (j + 1)
        rw [Nat.testBit_lor, one_testBit_succ] at hj
        rw [one_testBit_succ, (Bool.or_eq_false_iff.mp hj).1]
    have hb1 : b = 1 := by
      apply Nat.eq_of_testBit_eq
      intro i
      cases i with
      | zero => rw [Nat.testBit_zero, Nat.testBit_zero]; simp [hb]
      | succ j =>
        have hj := hbit (j + 1)
        rw [Nat.testBit_lor, one_testBit_succ] at hj
        rw [one_testBit_succ, (Bool.or_eq_false_iff.mp hj).2]
    exact ⟨ha1, hb1⟩
  · rintro ⟨rfl, rfl⟩; rfl

/-- Every cordz_info word written by the three setters is odd: the null
word is 1 and set_cordz_info sets the low tag bit. -/
theorem valid_cordz_odd (c : Nat) (v : ValidCordzInfo c) : c % 2 = 1 := by
  rcases v with rfl | ⟨p, rfl⟩
  · rfl
  · have h1 : (p ||| 1) % 2 = 1 := by
      have ht : (p ||| 1).testBit 0 = true := by
        rw [Nat.testBit_lor]
        simp [Nat.testBit_zero]
      rw [Nat.testBit_zero] at ht
      simpa using ht
    rw [Nat.mod_mod_of_dvd _ (by norm_num : (2 : Nat) ∣ 2 ^ 64)]
    exact h1

/-- suffixAfter returns the part after the marked element when that
element occurs exactly once up to its first occurrence. -/
theorem suffixAfter_eq (self : CordzHandle) (pre post : List CordzHandle)
    (h : self ∉ pre) : suffixAfter self (pre ++ self :: post) = post := by
  induction pre with
  | nil => simp [suffixAfter]
  | cons a as ih =>
    simp only [List.mem_cons, not_or] at h
    simp only [List.cons_append, suffixAfter]
    rw [if_neg (by exact fun hc => h.1 hc.symm)]
    exact ih h.2

/-- C1: starting from an empty delete queue, constructing snapshot S1,
deferring non-snapshot H through Delete, and constructing snapshot S2
produces the tail-first queues [H, S1] and then [S2, H, S1]; S1 may
inspect H while S2 may not; destroying S1 (the head) also destroys H and
leaves the queue [S2]. Handles are S1 = (1, snapshot), H = (2, plain),
S2 = (3, snapshot). -/
theorem cordz_delete_queue_scenario :
    CordzHandleConstruct ⟨1, true⟩ [] = [⟨1, true⟩] ∧
    CordzHandleDelete (some ⟨2, false⟩) [⟨1, true⟩] =
      .ok ([⟨1, true⟩, ⟨2, false⟩], []) ∧
    DiagnosticsGetDeleteQueue [⟨1, true⟩, ⟨2, false⟩] = [⟨2, false⟩, ⟨1, true⟩] ∧
    CordzHandleConstruct ⟨3, true⟩ [⟨1, true⟩, ⟨2, false⟩] =
      [⟨1, true⟩, ⟨2, false⟩, ⟨3, true⟩] ∧
    DiagnosticsGetDeleteQueue [⟨1, true⟩, ⟨2, false⟩, ⟨3, true⟩] =
      [⟨3, true⟩, ⟨2, false⟩, ⟨1, true⟩] ∧
    DiagnosticsHandleIsSafeToInspect ⟨1, true⟩ (some ⟨2, false⟩)
      [⟨1, true⟩, ⟨2, false⟩, ⟨3, true⟩] = true ∧
    DiagnosticsHandleIsSafeToInspect ⟨3, true⟩ (some ⟨2, false⟩)
      [⟨1, true⟩, ⟨2, false⟩, ⟨3, true⟩] = false ∧
    CordzHandleDestruct ⟨1, true⟩ [⟨1, true⟩, ⟨2, false⟩, ⟨3, true⟩] =
      ([⟨3, true⟩], [⟨2, false⟩]) ∧
    DiagnosticsGetDeleteQueue [⟨3, true⟩] = [⟨3, true⟩] :=
  ⟨rfl, rfl, rfl, rfl, rfl, rfl, rfl, rfl, rfl⟩

/-- C2: for every tag between FLAT and MAX_FLAT_TAG, the allocated size
of the tag rounds up to itself and converts back to the same tag, so
TagToAllocatedSize and AllocatedSizeToTag are exact inverses on the
representable sizes and RoundUpForTag fixes every representable size. -/
theorem size_class_codec_round_trip (t : Nat) (h1 : FLAT ≤ t)
    (h2 : t ≤ MAX_FLAT_TAG) :
    AllocatedSizeToTag (RoundUpForTag (TagToAllocatedSize t)) = t ∧
    RoundUpForTag (TagToAllocatedSize t) = TagToAllocatedSize t ∧
    AllocatedSizeToTag (TagToAllocatedSize t) = t := by
  have hball : ∀ s < 249, 6 ≤ s →
      AllocatedSizeToTag (RoundUpForTag (TagToAllocatedSize s)) = s ∧
      RoundUpForTag (TagToAllocatedSize s) = TagToAllocatedSize s ∧
      AllocatedSizeToTag (TagToAllocatedSize s) = s := by
    set_option maxRecDepth 4000 in decide
  refine hball t ?_ ?_
  · simp only [MAX_FLAT_TAG] at h2; omega
  · simp only [FLAT] at h1; omega

/-- C2 witness: the round trip evaluated at tag 70 (a 64-byte band tag). -/
theorem size_class_codec_round_trip_witness :
    FLAT ≤ 70 ∧ 70 ≤ MAX_FLAT_TAG ∧
    (AllocatedSizeToTag (RoundUpForTag (TagToAllocatedSize 70)) = 70 ∧
     RoundUpForTag (TagToAllocatedSize 70) = TagToAllocatedSize 70 ∧
     AllocatedSizeToTag (TagToAllocatedSize 70) = 70) :=
  ⟨by decide, by decide, size_class_codec_round_trip 70 (by decide) (by decide)⟩

/-- C3 counterexample: in the reachable queue [S1, H1, S2, H2] (built by
constructing snapshot S1, deferring H1, constructing snapshot S2,
deferring H2), GetSafeToInspectDeletedHandles called on S1 returns
[H1, H2], while the claimed behavior (stop at the next snapshot S2)
returns only [H1]: the handle H2 beyond the next snapshot is included by
the code, refuting the claim. -/
theorem getSafeHandles_stops_at_snapshot_refuted :
    CordzHandleConstruct ⟨1, true⟩ [] = [⟨1, true⟩] ∧
    CordzHandleDelete (some ⟨2, false⟩) [⟨1, true⟩] =
      .ok ([⟨1, true⟩, ⟨2, false⟩], []) ∧
    CordzHandleConstruct ⟨3, true⟩ [⟨1, true⟩, ⟨2, false⟩] =
      [⟨1, true⟩, ⟨2, false⟩, ⟨3, true⟩] ∧
    CordzHandleDelete (some ⟨4, false⟩) [⟨1, true⟩, ⟨2, false⟩, ⟨3, true⟩] =
      .ok ([⟨1, true⟩, ⟨2, false⟩, ⟨3, true⟩, ⟨4, false⟩], []) ∧
    DiagnosticsGetSafeToInspectDeletedHandles ⟨1, true⟩
      [⟨1, true⟩, ⟨2, false⟩, ⟨3, true⟩, ⟨4, false⟩] =
      [⟨2, false⟩, ⟨4, false⟩] ∧
    specGetSafeToInspectDeletedHandles ⟨1, true⟩
      [⟨1, true⟩, ⟨2, false⟩, ⟨3, true⟩, ⟨4, false⟩] = [⟨2, false⟩] ∧
    ([⟨2, false⟩, ⟨4, false⟩] : List CordzHandle) ≠ [⟨2, false⟩] :=
  ⟨rfl, rfl, rfl, rfl, rfl, rfl, by decide⟩

/-- C3 amended: GetSafeToInspectDeletedHandles returns the empty vector
when the caller is not a snapshot; when the caller is a snapshot at some
position of the queue, it returns every non-snapshot handle after that
position toward the tail, not stopping at the next snapshot. -/
theorem getSafeHandles_all_after_position (self : CordzHandle)
    (q pre post : List CordzHandle)
    (hq : self.is_snapshot = true → q = pre ++ self :: post ∧ self ∉ pre) :
    DiagnosticsGetSafeToInspectDeletedHandles self q =
      if self.is_snapshot then post.filter (fun p => !p.is_snapshot)
      else [] := by
  unfold DiagnosticsGetSafeToInspectDeletedHandles
  cases hs : self.is_snapshot with
  | false => simp
  | true =>
    obtain ⟨hq1, hq2⟩ := hq hs
    subst hq1
    simp only [Bool.not_true, Bool.false_eq_true, if_false, if_true,
      Bool.true_eq_false]
    rw [suffixAfter_eq self pre post hq2]

/-- C3 amended witness: the snapshot (1) heading the two-element queue
sees the deferred handle (2). -/
theorem getSafeHandles_all_after_position_witness :
    (((⟨1, true⟩ : CordzHandle).is_snapshot = true →
      ([⟨1, true⟩, ⟨2, false⟩] : List CordzHandle) =
        [] ++ ⟨1, true⟩ :: [⟨2, false⟩] ∧
      (⟨1, true⟩ : CordzHandle) ∉ ([] : List CordzHandle))) ∧
    DiagnosticsGetSafeToInspectDeletedHandles ⟨1, true⟩
        [⟨1, true⟩, ⟨2, false⟩] =
      (if (⟨1, true⟩ : CordzHandle).is_snapshot then
        ([⟨2, false⟩] : List CordzHandle).filter (fun p => !p.is_snapshot)
      else []) :=
  ⟨fun _ => ⟨rfl, by decide⟩,
   getSafeHandles_all_after_position ⟨1, true⟩ [⟨1, true⟩, ⟨2, false⟩] []
     [⟨2, false⟩] (fun _ => ⟨rfl, by decide⟩)⟩

/-- C4: taking a proper subrange (0 < n, n < length, pos + n within
bounds) of a substring node s whose child c is a flat or external node
allocates one fresh substring node whose child pointer is c itself
(never a substring node) and whose start is s.start + pos; the child
gains one reference. -/
theorem substring_normalization (h : CordHeap) (s c : Nat)
    (snode cnode : CordRep) (pos n : Nat)
    (hs : h.mem s = some snode) (hst : snode.tag = SUBSTRING)
    (hchild : snode.child = c)
    (hc : h.mem c = some cnode) (hck : cnode.tag = EXTERNAL ∨ FLAT ≤ cnode.tag)
    (hwf : ∀ q, h.next ≤ q → h.mem q = none)
    (hn0 : 0 < n) (hnlt : n < snode.length) (hpos : pos + n ≤ snode.length) :
    ∃ h2 : CordHeap,
      CordRepSubstringSubstring h s pos n = some (h2, h.next) ∧
      h2.mem h.next = some { length := n, refcount := RefcountInit,
                             tag := SUBSTRING, start := snode.start + pos,
                             child := c } ∧
      h2.mem c = some { cnode with refcount := RefIncrementOp cnode.refcount } ∧
      cnode.IsSubstring = false := by
  have hclt : c < h.next := by
    by_contra hcl
    rw [hwf c (by omega)] at hc
    exact Option.noConfusion hc
  have hsub : snode.IsSubstring = true := by
    simp [CordRep.IsSubstring, hst]
  have hcsub : cnode.IsSubstring = false := by
    simp only [CordRep.IsSubstring, SUBSTRING, decide_eq_false_iff_not]
    rcases hck with h1 | h1
    · simp only [EXTERNAL] at h1; omega
    · simp only [FLAT] at h1; omega
  refine ⟨((CordRepRef h c).alloc
      { length := n, refcount := RefcountInit, tag := SUBSTRING,
        start := pos + snode.start, child := c }).fst, ?_, ?_, ?_, hcsub⟩
  · simp only [CordRepSubstringSubstring, hs]
    rw [if_neg (by omega), if_neg (by omega)]
    simp [hsub, hchild, CordHeap.alloc, CordRepRef_next]
  · have hnext : (CordRepRef h c).next = h.next := CordRepRef_next h c
    unfold CordHeap.alloc
    simp [hnext]
    omega
  · have hnext : (CordRepRef h c).next = h.next := CordRepRef_next h c
    unfold CordHeap.alloc
    simp only [hnext]
    rw [CordRepRef_eq h c cnode hc]
    unfold CordHeap.update
    simp [Nat.ne_of_lt hclt]

/-- C4 witness: Range(Range(flat, 5, 10), 2, 3) on the demo heap yields a
fresh node with start 7 pointing directly at the flat node. -/
theorem substring_normalization_witness :
    demoHeap.mem 1 = some substrDemoNode ∧ substrDemoNode.tag = SUBSTRING ∧
    substrDemoNode.child = 0 ∧ demoHeap.mem 0 = some flatDemoNode ∧
    (flatDemoNode.tag = EXTERNAL ∨ FLAT ≤ flatDemoNode.tag) ∧
    (∀ q, demoHeap.next ≤ q → demoHeap.mem q = none) ∧
    (0 : Nat) < 3 ∧ (3 : Nat) < substrDemoNode.length ∧
    2 + 3 ≤ substrDemoNode.length ∧
    (∃ h2 : CordHeap,
      CordRepSubstringSubstring demoHeap 1 2 3 = some (h2, demoHeap.next) ∧
      h2.mem demoHeap.next = some { length := 3, refcount := RefcountInit,
                                    tag := SUBSTRING,
                                    start := substrDemoNode.start + 2,
                                    child := 0 } ∧
      h2.mem 0 = some { flatDemoNode with
                        refcount := RefIncrementOp flatDemoNode.refcount } ∧
      flatDemoNode.IsSubstring = false) :=
  ⟨rfl, rfl, rfl, rfl, by decide,
   fun q hq => by
     unfold demoHeap at *
     simp only at hq ⊢
     rw [if_neg (by omega), if_neg (by omega)],
   by decide, by decide, by decide,
   substring_normalization demoHeap 1 0 substrDemoNode flatDemoNode 2 3 rfl rfl
     rfl rfl (by decide)
     (fun q hq => by
       unfold demoHeap at *
       simp only at hq ⊢
       rw [if_neg (by omega), if_neg (by omega)])
     (by decide) (by decide) (by decide)⟩

/-- C5: a full-range request (pos = 0, n = length, n > 0) on any present
node returns the node itself with its refcount raised by one reference
unit, allocating nothing: the heap domain and the next fresh address are
unchanged. The refcount bound keeps the int32 fetch_add from wrapping. -/
theorem substring_full_range_shortcut (h : CordHeap) (rep : Nat)
    (node : CordRep) (n : Nat)
    (hm : h.mem rep = some node) (hn : n = node.length) (hn0 : 0 < n)
    (hrc0 : 0 ≤ node.refcount) (hrc1 : node.refcount + kRefIncrement < 2 ^ 31) :
    CordRepSubstringSubstring h rep 0 n = some (CordRepRef h rep, rep) ∧
    (CordRepRef h rep).mem rep =
      some { node with refcount := node.refcount + kRefIncrement } ∧
    (∀ q, ((CordRepRef h rep).mem q).isSome = (h.mem q).isSome) ∧
    (CordRepRef h rep).next = h.next := by
  have hinc : RefIncrementOp node.refcount = node.refcount + kRefIncrement := by
    unfold RefIncrementOp
    exact wrap32_id (by unfold kRefIncrement at *; omega) hrc1
  have href : CordRepRef h rep =
      h.update rep { node with refcount := node.refcount + kRefIncrement } := by
    rw [CordRepRef_eq h rep node hm, hinc]
  refine ⟨?_, ?_, ?_, CordRepRef_next h rep⟩
  · simp only [CordRepSubstringSubstring, hm]
    rw [if_neg (by omega), if_pos hn]
  · rw [href]; unfold CordHeap.update; simp
  · intro q
    rw [href]; unfold CordHeap.update
    by_cases hq : q = rep
    · subst hq; simp [hm]
    · simp [hq]

/-- C5 witness: the full range of the 20-byte flat node returns the same
address with one more reference and no allocation. -/
theorem substring_full_range_shortcut_witness :
    fullDemoHeap.mem 0 = some flatDemoNode ∧
    (20 : Nat) = flatDemoNode.length ∧ (0 : Nat) < 20 ∧
    0 ≤ flatDemoNode.refcount ∧
    flatDemoNode.refcount + kRefIncrement < 2 ^ 31 ∧
    (CordRepSubstringSubstring fullDemoHeap 0 0 20 =
        some (CordRepRef fullDemoHeap 0, 0) ∧
      (CordRepRef fullDemoHeap 0).mem 0 =
        some { flatDemoNode with
               refcount := flatDemoNode.refcount + kRefIncrement } ∧
      (∀ q, ((CordRepRef fullDemoHeap 0).mem q).isSome =
        (fullDemoHeap.mem q).isSome) ∧
      (CordRepRef fullDemoHeap 0).next = fullDemoHeap.next) :=
  ⟨rfl, rfl, by decide, by decide, by decide,
   substring_full_range_shortcut fullDemoHeap 0 flatDemoNode 20 rfl rfl
     (by decide) (by decide) (by decide)⟩

/-- C6: on a state holding at least one live reference, Decrement and
DecrementExpectHighRefcount return false exactly when the counter is
non-immortal and holds exactly one live reference (the count reached
zero); a counter constructed with the Immortal flag returns true from
Decrement on every call, after any number of prior decrements. -/
theorem refcount_decrement_zero_detection (c : Int) (h : 1 ≤ RefGet c) :
    ((RefDecrement c).fst = false ↔
      RefIsImmortal c = false ∧ RefGet c = 1) ∧
    ((RefDecrementExpectHighRefcount c).fst = false ↔
      RefIsImmortal c = false ∧ RefGet c = 1) ∧
    (∀ k : Nat,
      (RefDecrement (RefDecrementIter RefcountImmortalInit k)).fst = true) := by
  rw [RefGet_eq] at h
  refine ⟨?_, ?_, ?_⟩
  · rw [RefGet_eq]
    simp only [RefDecrement, RefIsImmortal, decide_eq_false_iff_not,
      kRefIncrement]
    split <;> rename_i hc <;> constructor <;> intro hx
    · omega
    · rfl
    · simp at hx
    · omega
  · rw [RefGet_eq]
    simp only [RefDecrementExpectHighRefcount, RefIsImmortal,
      decide_eq_false_iff_not, kRefIncrement, ne_eq, decide_not,
      Bool.not_eq_false', decide_eq_true_eq]
    omega
  · intro k
    have hodd := refDecrementIter_immortal_odd k
    unfold RefDecrement
    split
    · rename_i hc; rw [hc] at hodd; simp [kRefIncrement] at hodd
    · rfl

/-- C6 witness: the freshly initialized count 2 holds one live reference
and Decrement on it reports zero reached. -/
theorem refcount_decrement_zero_detection_witness :
    (1 : Int) ≤ RefGet 2 ∧
    (((RefDecrement 2).fst = false ↔
       RefIsImmortal 2 = false ∧ RefGet 2 = 1) ∧
     ((RefDecrementExpectHighRefcount 2).fst = false ↔
       RefIsImmortal 2 = false ∧ RefGet 2 = 1) ∧
     (∀ k : Nat,
       (RefDecrement (RefDecrementIter RefcountImmortalInit k)).fst = true)) :=
  ⟨by decide, refcount_decrement_zero_detection 2 (by decide)⟩

/-- C7 counterexample: the immortal counter incremented once has packed
count 3, a live count of exactly one, yet IsOne returns false, refuting
the claim that IsOne is true for every counter with one live reference
including immortal ones. -/
theorem isOne_immortal_counterexample :
    RefIncrementOp RefcountImmortalInit = 3 ∧ RefGet 3 = 1 ∧
    RefIsImmortal 3 = true ∧ RefIsOne 3 = false := by decide

/-- C7 amended: IsOne returns true exactly when the counter holds one
live reference and the immortal flag is clear; on immortal counters it is
always false. -/
theorem isOne_iff_one_live_not_immortal (c : Int) :
    RefIsOne c = true ↔ RefGet c = 1 ∧ RefIsImmortal c = false := by
  rw [RefGet_eq]
  simp only [RefIsOne, RefIsImmortal, decide_eq_true_eq,
    decide_eq_false_iff_not, kRefIncrement]
  omega

/-- C8: Delete applied to a null handle is the fatal assert path for
every queue state; the operation never returns normally there. -/
theorem delete_null_handle_fatal (q : List CordzHandle) :
    CordzHandleDelete none q = .error () := rfl

/-- C9: writing n bytes (n at most kMaxInline) through set_inline_data
yields an inline (non-tree) value of inline size n whose first n payload
bytes read back as the input; constructing from a node pointer yields a
tree value returning that same pointer. -/
theorem inline_data_round_trip (r : InlineRep) (src : Nat → Nat) (n : Nat)
    (hn : n ≤ kMaxInline) :
    InlineData_is_tree (InlineData_set_inline_data r src n) = false ∧
    InlineData_inline_size (InlineData_set_inline_data r src n) = n ∧
    (∀ i, i < n →
      InlineData_as_chars (InlineData_set_inline_data r src n) i = src i) ∧
    (∀ p : Nat, InlineData_is_tree (InlineData_ofTree p) = true ∧
      InlineData_as_tree (InlineData_ofTree p) = p) := by
  have hn15 : n ≤ 15 := hn
  have htag : (InlineData_set_inline_data r src n).tag = 2 * n := by
    simp only [InlineData_set_inline_data, InlineRep.tag]
    rw [Nat.shiftLeft_eq]
    have h2n : n * 2 ^ 1 = 2 * n := by ring
    rw [h2n, Nat.mod_eq_of_lt (by omega)]
    simp
  refine ⟨?_, ?_, ?_, fun p => ⟨by simp [InlineData_is_tree, InlineData_ofTree,
    InlineRep.tag, kNullCordzInfo, Nat.and_one_is_mod], rfl⟩⟩
  · simp only [InlineData_is_tree, htag, Nat.and_one_is_mod]
    simp [Nat.mul_mod_right]
  · simp only [InlineData_inline_size, htag, Nat.shiftRight_eq_div_pow]
    omega
  · intro i hilt
    simp only [InlineData_as_chars, InlineData_set_inline_data, InlineRep.chars]
    rw [dif_pos (by omega : i + 1 < 16)]
    beta_reduce
    rw [if_neg (by simp : ¬ ((⟨i + 1, by omega⟩ : Fin 16) : Nat) = 0)]
    show SmallMemmoveNullify r.chars src n i = src i
    rw [smallMemmoveNullify_spec r.chars src n hn15 i (by omega), if_pos hilt]

/-- C9 witness: a 10-byte write into a zeroed inline value, and the tree
construction, evaluated concretely. -/
theorem inline_data_round_trip_witness :
    (10 : Nat) ≤ kMaxInline ∧
    (InlineData_is_tree
        (InlineData_set_inline_data (.bytes fun _ => 0) (fun i => 100 + i) 10) =
      false ∧
     InlineData_inline_size
        (InlineData_set_inline_data (.bytes fun _ => 0) (fun i => 100 + i) 10) =
      10 ∧
     (∀ i, i < 10 →
       InlineData_as_chars
         (InlineData_set_inline_data (.bytes fun _ => 0) (fun i => 100 + i) 10)
         i = 100 + i) ∧
     (∀ p : Nat, InlineData_is_tree (InlineData_ofTree p) = true ∧
       InlineData_as_tree (InlineData_ofTree p) = p)) :=
  ⟨by decide,
   inline_data_round_trip (.bytes fun _ => 0) (fun i => 100 + i) 10 (by decide)⟩

/-- C10: for two tree values whose cordz_info words were written only by
make_tree, set_cordz_info or clear_cordz_info, the bitwise OR shortcut of
is_either_profiled agrees with the disjunction of the two is_profiled
tests. -/
theorem either_profiled_eq_disjunction (c1 c2 p1 p2 : Nat)
    (v1 : ValidCordzInfo c1) (v2 : ValidCordzInfo c2) :
    InlineData_is_either_profiled (.tree c1 p1) (.tree c2 p2) =
      (InlineData_is_profiled (.tree c1 p1) ||
       InlineData_is_profiled (.tree c2 p2)) := by
  have h1 := valid_cordz_odd c1 v1
  have h2 := valid_cordz_odd c2 v2
  have key := lor_eq_one_iff c1 c2 h1 h2
  simp only [InlineData_is_either_profiled, InlineData_is_profiled,
    InlineRep.cordzInfoVal, kNullCordzInfo]
  rw [← Bool.decide_or]
  simp only [decide_eq_decide]
  constructor
  · intro h
    by_contra hc
    push_neg at hc
    exact h (key.mpr hc)
  · intro h hl
    rcases h with h | h
    · exact h (key.mp hl).1
    · exact h (key.mp hl).2

/-- C10 witness: a null word next to a sampled word set from pointer 4. -/
theorem either_profiled_eq_disjunction_witness :
    ValidCordzInfo 1 ∧ ValidCordzInfo ((4 ||| 1) % 2 ^ 64) ∧
    InlineData_is_either_profiled (.tree 1 7) (.tree ((4 ||| 1) % 2 ^ 64) 9) =
      (InlineData_is_profiled (.tree 1 7) ||
       InlineData_is_profiled (.tree ((4 ||| 1) % 2 ^ 64) 9)) :=
  ⟨Or.inl rfl, Or.inr ⟨4, rfl⟩,
   either_profiled_eq_disjunction 1 ((4 ||| 1) % 2 ^ 64) 7 9 (Or.inl rfl)
     (Or.inr ⟨4, rfl⟩)⟩

end AbslCord
